import Mathlib

/-!
Verification of `split_genbank.py` (processing_scripts_checkv_v1).

The script splits a multi-record GenBank file into one file per record:

    def split_genbank(input_file, output_dir):
        os.makedirs(output_dir, exist_ok=True)
        records = list(SeqIO.parse(input_file, "genbank"))
        for i, record in enumerate(records, 1):
            output_file = os.path.join(output_dir, f"pharokka_{i}.gbk")
            SeqIO.write(record, output_file, "genbank")
            print(f"Written {output_file}")

The external Biopython parser/writer (`SeqIO.parse`, `SeqIO.write`) is not part
of the repository; it is modelled from the spec's description of the format:
a file is a concatenation of record blocks, each with a header (identifier),
an annotated-features section, a sequence-data section, and a record-end
marker.  A file is modelled as a list of `Line`s; an empty file is `[]`.
The filesystem is modelled as an explicit state (directories and files), and
the write loop as a trace of events (file writes and stdout prints), with a
parameter saying which write steps fail (e.g. disk full).
-/

namespace SplitGenbank

/-- A sequence record: identifier, sequence data and feature annotations.
The Python script treats records as opaque; this is the record content the
spec's round-trip property talks about. -/
structure Record where
  id : String
  seq : String
  features : List String
deriving DecidableEq, Repr, Inhabited

/-- One line of a flat GenBank-style file, modelled from the spec:
header section (identifier), features section, sequence data section,
record-end marker. -/
inductive Line where
  | locus (id : String)
  | featuresHeader
  | feature (f : String)
  | origin
  | seqLine (s : String)
  | terminator
deriving DecidableEq, Repr

/-- Modelled from the spec: `SeqIO.write` serialises one record as a block:
header line, features section, sequence data, record-end marker. -/
def writeRecord (r : Record) : List Line :=
  Line.locus r.id :: Line.featuresHeader ::
    (r.features.map Line.feature ++
      (Line.origin :: Line.seqLine r.seq :: [Line.terminator]))

/-- Serialisation of a whole multi-record file: concatenated record blocks. -/
def writeRecords (rs : List Record) : List Line :=
  rs.flatMap writeRecord

/-- Parse failure (input not valid according to the format grammar). -/
inductive ParseError where
  | malformed
deriving DecidableEq, Repr

/-- Modelled from the spec: consume the features section of a block, up to
the `origin` marker that starts the sequence-data section. -/
def takeFeatures : List Line → Except ParseError (List String × List Line)
  | Line.origin :: rest => Except.ok ([], rest)
  | Line.feature f :: rest =>
    match takeFeatures rest with
    | Except.ok (fs, rem) => Except.ok (f :: fs, rem)
    | Except.error e => Except.error e
  | _ => Except.error ParseError.malformed

/-- Modelled from the spec: parse one record block (header, features,
sequence data, record-end marker) off the front of the file. -/
def parseBlock : List Line → Except ParseError (Record × List Line)
  | Line.locus i :: Line.featuresHeader :: rest =>
    match takeFeatures rest with
    | Except.ok (fs, Line.seqLine s :: Line.terminator :: rem) =>
      Except.ok ({ id := i, seq := s, features := fs }, rem)
    | Except.ok _ => Except.error ParseError.malformed
    | Except.error e => Except.error e
  | _ => Except.error ParseError.malformed

/-- Fuel-indexed record-sequence parsing; the fuel only bounds the number of
blocks, each of which consumes at least one line, so `fuel = ls.length`
is always enough. -/
def parseRecordsAux : Nat → List Line → Except ParseError (List Record)
  | _, [] => Except.ok []
  | 0, _ :: _ => Except.error ParseError.malformed
  | Nat.succ fuel, l :: ls =>
    match parseBlock (l :: ls) with
    | Except.error e => Except.error e
    | Except.ok (r, rem) =>
      match parseRecordsAux fuel rem with
      | Except.error e => Except.error e
      | Except.ok rs => Except.ok (r :: rs)

/-- Modelled from the spec: `list(SeqIO.parse(input_file, "genbank"))` —
parse the whole file as an ordered sequence of record blocks; the sequence
may be empty. -/
def parseRecords (ls : List Line) : Except ParseError (List Record) :=
  parseRecordsAux ls.length ls

/-- Decimal digit character, as Python's `str` renders a digit. -/
def digitChar (d : Nat) : Char := Char.ofNat (48 + d)

/-- Fuel-indexed decimal rendering of a natural number (most significant
digit first); `fuel = n` is always enough. -/
def natDigitsAux : Nat → Nat → List Char
  | 0, n => [digitChar (n % 10)]
  | Nat.succ fuel, n =>
    if n < 10 then [digitChar n]
    else natDigitsAux fuel (n / 10) ++ [digitChar (n % 10)]

/-- Decimal rendering of a natural number, as the f-string `f"{i}"` does. -/
def natDigits (n : Nat) : List Char := natDigitsAux n n

/-- Decimal rendering as a string. -/
def natToString (n : Nat) : String := String.mk (natDigits n)

/-- The output file name `f"pharokka_{i}.gbk"`. -/
def outputFileName (i : Nat) : String := "pharokka_" ++ natToString i ++ ".gbk"

/-- `os.path.join(output_dir, f"pharokka_{i}.gbk")` with the POSIX
separator. -/
def outputPath (dir : String) (i : Nat) : String := dir ++ "/" ++ outputFileName i

/-- Filesystem state: existing directories and files (path with content). -/
structure FS where
  dirs : List String
  files : List (String × List Line)
deriving DecidableEq, Repr

/-- Content of the file at path `p`, if it exists (most recent write wins). -/
def FS.lookupFile (fs : FS) (p : String) : Option (List Line) :=
  (fs.files.find? (fun e => e.1 == p)).map (fun e => e.2)

/-- Whether `p` exists as a file. -/
def FS.isFilePath (fs : FS) (p : String) : Bool :=
  fs.files.any (fun e => e.1 == p)

/-- `os.makedirs(output_dir, exist_ok=True)`: no-op if the directory already
exists, creates it otherwise; fails (None) if the path exists as a file. -/
def makedirs (fs : FS) (d : String) : Option FS :=
  if fs.isFilePath d then none
  else if fs.dirs.contains d then some fs
  else some { fs with dirs := d :: fs.dirs }

/-- Observable effects of the write loop: a file write, or a line printed
on standard output. -/
inductive Event where
  | wrote (path : String) (content : List Line)
  | printed (line : String)
deriving DecidableEq, Repr

/-- The two events of one loop iteration `i`: `SeqIO.write(record, path)`
followed by `print(f"Written {path}")`. -/
def recordEvents (dir : String) (p : Nat × Record) : List Event :=
  [Event.wrote (outputPath dir p.1) (writeRecord p.2),
   Event.printed ("Written " ++ outputPath dir p.1)]

/-- The `for i, record in enumerate(records, 1)` loop, with a parameter
`wf` telling which write steps fail (`SeqIO.write` raising, e.g. disk full).
Returns the emitted events and `true` iff the loop ran to completion. -/
def splitLoop (wf : Nat → Bool) (dir : String) : List Record → Nat → List Event × Bool
  | [], _ => ([], true)
  | r :: rs, i =>
    if wf i then ([], false)
    else
      let rest := splitLoop wf dir rs (i + 1)
      (recordEvents dir (i, r) ++ rest.1, rest.2)

/-- Apply one event to the filesystem (a print does not touch it). -/
def applyEvent (fs : FS) : Event → FS
  | Event.wrote p c => { fs with files := (p, c) :: fs.files }
  | Event.printed _ => fs

/-- Apply a trace of events to the filesystem, in order. -/
def applyEvents (fs : FS) (evs : List Event) : FS := evs.foldl applyEvent fs

/-- The stdout lines of a trace, in order. -/
def printedLines (evs : List Event) : List String :=
  evs.filterMap (fun e => match e with | Event.printed l => some l | _ => none)

/-- The (path, content) pairs written by a trace, in order. -/
def writtenFiles (evs : List Event) : List (String × List Line) :=
  evs.filterMap (fun e => match e with | Event.wrote p c => some (p, c) | _ => none)

/-- Fatal errors of the program, per the spec's error taxonomy. -/
inductive ProgError where
  | fsError
  | parseError
  | writeError
deriving DecidableEq, Repr

/-- Outcome of a run: final filesystem, stdout, emitted events, and the
error it terminated with (`none` = exit code 0). -/
structure RunResult where
  fs : FS
  stdout : List String
  events : List Event
  error : Option ProgError
deriving DecidableEq, Repr

/-- The whole of `split_genbank(input_file, output_dir)`: ensure the output
directory, parse all records (a missing input file or a malformed file is a
`ParseError`), then write each record to `pharokka_<i>.gbk` printing a
progress line, aborting on the first failed write. -/
def split_genbank (wf : Nat → Bool) (fs : FS) (input_file output_dir : String) :
    RunResult :=
  match makedirs fs output_dir with
  | none => ⟨fs, [], [], some ProgError.fsError⟩
  | some fs1 =>
    match fs1.lookupFile input_file with
    | none => ⟨fs1, [], [], some ProgError.parseError⟩
    | some content =>
      match parseRecords content with
      | Except.error _ => ⟨fs1, [], [], some ProgError.parseError⟩
      | Except.ok records =>
        let res := splitLoop wf output_dir records 1
        ⟨applyEvents fs1 res.1, printedLines res.1, res.1,
          if res.2 then none else some ProgError.writeError⟩

/-- The run in which no write fails. -/
def noFail : Nat → Bool := fun _ => false

/-! ### Round-trip of the serialiser through the parser -/

theorem takeFeatures_append (fs : List String) (rest : List Line) :
    takeFeatures (fs.map Line.feature ++ Line.origin :: rest) = Except.ok (fs, rest) := by
  induction fs with
  | nil => simp [takeFeatures]
  | cons f fs ih => simp [takeFeatures, ih]

theorem parseBlock_writeRecord (r : Record) (rest : List Line) :
    parseBlock (writeRecord r ++ rest) = Except.ok (r, rest) := by
  simp [writeRecord, parseBlock, takeFeatures_append]

theorem writeRecord_length_pos (r : Record) : 0 < (writeRecord r).length := by
  simp [writeRecord]

theorem writeRecords_nil : writeRecords [] = [] := rfl

theorem writeRecords_cons (r : Record) (rs : List Record) :
    writeRecords (r :: rs) = writeRecord r ++ writeRecords rs := by
  simp [writeRecords]

theorem parseRecordsAux_writeRecords (rs : List Record) :
    ∀ fuel, (writeRecords rs).length ≤ fuel →
      parseRecordsAux fuel (writeRecords rs) = Except.ok rs := by
  induction rs with
  | nil => intro fuel _; cases fuel <;> simp [writeRecords, parseRecordsAux]
  | cons r rs ih =>
    intro fuel hfuel
    rw [writeRecords_cons] at hfuel ⊢
    have hpos : 0 < (writeRecord r ++ writeRecords rs).length := by
      have := writeRecord_length_pos r
      simp only [List.length_append]; omega
    obtain ⟨fuel', rfl⟩ : ∃ f, fuel = f + 1 := by
      cases fuel with
      | zero => omega
      | succ f => exact ⟨f, rfl⟩
    obtain ⟨l, ls, hls⟩ : ∃ l ls, writeRecord r ++ writeRecords rs = l :: ls := by
      cases h : writeRecord r ++ writeRecords rs with
      | nil => rw [h] at hpos; simp at hpos
      | cons l ls => exact ⟨l, ls, rfl⟩
    rw [hls, parseRecordsAux, ← hls, parseBlock_writeRecord]
    have hrec : (writeRecords rs).length ≤ fuel' := by
      have := writeRecord_length_pos r
      simp only [List.length_append] at hfuel
      omega
    simp [ih fuel' hrec]

/-- Re-parsing the serialisation of any record sequence recovers it. -/
theorem parseRecords_writeRecords (rs : List Record) :
    parseRecords (writeRecords rs) = Except.ok rs :=
  parseRecordsAux_writeRecords rs _ le_rfl

theorem parseRecords_writeRecord (r : Record) :
    parseRecords (writeRecord r) = Except.ok [r] := by
  have h := parseRecords_writeRecords [r]
  simpa [writeRecords] using h

/-! ### Decimal rendering and injectivity of the output paths -/

/-- Numeric value of a digit character. -/
def digitVal (c : Char) : Nat := c.toNat - 48

/-- Value of a most-significant-first digit string. -/
def digitsVal (l : List Char) : Nat :=
  l.foldl (fun acc c => 10 * acc + digitVal c) 0

theorem digitVal_digitChar : ∀ d, d < 10 → digitVal (digitChar d) = d := by decide

theorem digitsVal_aux (l : List Char) :
    ∀ a, l.foldl (fun acc c => 10 * acc + digitVal c) a =
      a * 10 ^ l.length + digitsVal l := by
  induction l with
  | nil => intro a; simp [digitsVal]
  | cons c l ih =>
    intro a
    have h1 : digitsVal (c :: l) = digitVal c * 10 ^ l.length + digitsVal l := by
      simp only [digitsVal, List.foldl_cons]
      rw [ih (10 * 0 + digitVal c), ih 0]
      ring
    simp only [List.foldl_cons]
    rw [ih (10 * a + digitVal c), h1, List.length_cons, pow_succ]
    ring

theorem digitsVal_append (l : List Char) (c : Char) :
    digitsVal (l ++ [c]) = 10 * digitsVal l + digitVal c := by
  simp only [digitsVal, List.foldl_append, List.foldl_cons, List.foldl_nil]

theorem digitsVal_natDigitsAux : ∀ fuel n, n ≤ fuel →
    digitsVal (natDigitsAux fuel n) = n := by
  intro fuel
  induction fuel with
  | zero =>
    intro n hn
    have : n = 0 := Nat.le_zero.mp hn
    subst this
    simp [natDigitsAux, digitsVal, digitVal, digitChar]
  | succ fuel ih =>
    intro n hn
    by_cases h : n < 10
    · have h0 := digitVal_digitChar n h
      simp [natDigitsAux, if_pos h, digitsVal, h0]
    · simp only [natDigitsAux, if_neg h]
      have hdiv : n / 10 < n := Nat.div_lt_self (by omega) (by omega)
      rw [digitsVal_append, ih (n / 10) (by omega), digitVal_digitChar (n % 10) (by omega)]
      omega

theorem digitsVal_natDigits (n : Nat) : digitsVal (natDigits n) = n :=
  digitsVal_natDigitsAux n n le_rfl

theorem natDigits_injective : Function.Injective natDigits := by
  intro a b h
  have := digitsVal_natDigits a
  rw [h, digitsVal_natDigits] at this
  omega

theorem natToString_injective : Function.Injective natToString := by
  intro a b h
  exact natDigits_injective (congrArg String.data h)

theorem outputPath_injective (dir : String) : Function.Injective (outputPath dir) := by
  intro i j h
  apply natToString_injective
  have h' : (outputPath dir i).data = (outputPath dir j).data := congrArg String.data h
  simp only [outputPath, outputFileName, String.data_append, List.append_assoc] at h'
  have h1 := List.append_cancel_left h'
  have h2 := List.append_cancel_left h1
  have h3 := List.append_cancel_left h2
  have h4 := List.append_cancel_right h3
  exact congrArg String.mk h4

theorem outputPath_length (dir : String) (i : Nat) :
    (outputPath dir i).length = dir.length + 1 + (outputFileName i).length := by
  simp only [outputPath, String.length_append]
  rfl

theorem outputPath_ne_dir (dir : String) (i : Nat) : outputPath dir i ≠ dir := by
  intro h
  have := congrArg String.length h
  rw [outputPath_length] at this
  omega

/-! ### The write loop as a trace -/

theorem splitLoop_noFail (dir : String) (rs : List Record) :
    ∀ i, splitLoop noFail dir rs i = ((List.enumFrom i rs).flatMap (recordEvents dir), true) := by
  induction rs with
  | nil => intro i; simp [splitLoop]
  | cons r rs ih => intro i; simp [splitLoop, noFail, ih (i + 1), List.enumFrom]

theorem splitLoop_fail (wf : Nat → Bool) (dir : String) (k : Nat) (hk : wf k = true)
    (hlt : ∀ j, j < k → wf j = false) :
    ∀ (rs : List Record) (i : Nat), i ≤ k → k - i < rs.length →
      splitLoop wf dir rs i =
        ((List.enumFrom i (rs.take (k - i))).flatMap (recordEvents dir), false) := by
  intro rs
  induction rs with
  | nil => intro i _ hik; simp at hik
  | cons r rs ih =>
    intro i hik hlen
    by_cases hi : i = k
    · subst hi
      simp [splitLoop, hk, List.take]
    · have hikl : i < k := lt_of_le_of_ne hik hi
      have hwf : wf i = false := hlt i hikl
      obtain ⟨m, hm⟩ : ∃ m, k - i = m + 1 := ⟨k - i - 1, by omega⟩
      rw [splitLoop, hwf]
      simp only [Bool.false_eq_true, if_false, hm, List.take_succ_cons, List.enumFrom,
        List.flatMap_cons]
      have : m = k - (i + 1) := by omega
      rw [this, ih (i + 1) (by omega) (by simp at hlen; omega)]

theorem writtenFiles_append (evs1 evs2 : List Event) :
    writtenFiles (evs1 ++ evs2) = writtenFiles evs1 ++ writtenFiles evs2 := by
  simp [writtenFiles, List.filterMap_append]

theorem printedLines_append (evs1 evs2 : List Event) :
    printedLines (evs1 ++ evs2) = printedLines evs1 ++ printedLines evs2 := by
  simp [printedLines, List.filterMap_append]

theorem writtenFiles_flatMap (dir : String) (l : List (Nat × Record)) :
    writtenFiles (l.flatMap (recordEvents dir)) =
      l.map (fun p => (outputPath dir p.1, writeRecord p.2)) := by
  induction l with
  | nil => simp [writtenFiles]
  | cons p l ih =>
    simp only [List.flatMap_cons, writtenFiles_append, ih, List.map_cons]
    simp [writtenFiles, recordEvents]

theorem printedLines_flatMap (dir : String) (l : List (Nat × Record)) :
    printedLines (l.flatMap (recordEvents dir)) =
      l.map (fun p => "Written " ++ outputPath dir p.1) := by
  induction l with
  | nil => simp [printedLines]
  | cons p l ih =>
    simp only [List.flatMap_cons, printedLines_append, ih, List.map_cons]
    simp [printedLines, recordEvents]

theorem applyEvents_files (evs : List Event) :
    ∀ fs : FS, (applyEvents fs evs).files = (writtenFiles evs).reverse ++ fs.files := by
  induction evs with
  | nil => intro fs; simp [applyEvents, writtenFiles]
  | cons e evs ih =>
    intro fs
    cases e with
    | wrote p c =>
      simp only [applyEvents, List.foldl_cons] at *
      rw [ih]
      simp [writtenFiles, applyEvent]
    | printed l =>
      simp only [applyEvents, List.foldl_cons] at *
      rw [ih]
      simp [writtenFiles, applyEvent]

theorem applyEvents_dirs (evs : List Event) :
    ∀ fs : FS, (applyEvents fs evs).dirs = fs.dirs := by
  induction evs with
  | nil => intro fs; simp [applyEvents]
  | cons e evs ih =>
    intro fs
    cases e <;> simp only [applyEvents, List.foldl_cons] at * <;> rw [ih] <;> rfl

theorem makedirs_files {fs fs' : FS} {d : String} (h : makedirs fs d = some fs') :
    fs'.files = fs.files := by
  unfold makedirs at h
  split at h
  · exact absurd h (by simp)
  · split at h
    · cases h; rfl
    · cases h; rfl

theorem makedirs_dirs {fs fs' : FS} {d : String} (h : makedirs fs d = some fs') :
    d ∈ fs'.dirs ∧ (fs'.dirs = fs.dirs ∨ fs'.dirs = d :: fs.dirs) ∧
      fs.isFilePath d = false := by
  unfold makedirs at h
  split at h
  · exact absurd h (by simp)
  · rename_i hfile
    split at h
    · rename_i hdir
      cases h
      exact ⟨by simpa using hdir, Or.inl rfl, by simpa using hfile⟩
    · cases h
      exact ⟨by simp, Or.inr rfl, by simpa using hfile⟩

/-! ### Characterisation of a complete successful run -/

theorem split_genbank_noFail_eq (fs0 fs1 : FS) (input dir : String) (content : List Line)
    (rs : List Record) (hmk : makedirs fs0 dir = some fs1)
    (hin : fs1.lookupFile input = some content)
    (hparse : parseRecords content = Except.ok rs) :
    split_genbank noFail fs0 input dir =
      ⟨applyEvents fs1 ((List.enumFrom 1 rs).flatMap (recordEvents dir)),
       (List.enumFrom 1 rs).map (fun p => "Written " ++ outputPath dir p.1),
       (List.enumFrom 1 rs).flatMap (recordEvents dir), none⟩ := by
  unfold split_genbank
  rw [hmk]
  simp only []
  rw [hin]
  simp only []
  rw [hparse]
  simp only [splitLoop_noFail dir rs 1, printedLines_flatMap]
  simp

theorem find?_outputPath (dir : String) (i : Nat) (r : Record) :
    ∀ l : List (Nat × Record), (i, r) ∈ l → (∀ p ∈ l, p.1 = i → p.2 = r) →
      (l.map (fun p => (outputPath dir p.1, writeRecord p.2))).find?
          (fun e => e.1 == outputPath dir i) = some (outputPath dir i, writeRecord r) := by
  intro l
  induction l with
  | nil => intro h _; simp at h
  | cons p l ih =>
    intro hmem huniq
    by_cases hp : p.1 = i
    · have hr : p.2 = r := huniq p (List.mem_cons_self p l) hp
      simp only [List.map_cons]
      rw [List.find?_cons_of_pos _ (by simp [hp]), hp, hr]
    · have hne : outputPath dir p.1 ≠ outputPath dir i :=
        fun h => hp (outputPath_injective dir h)
      simp only [List.map_cons]
      rw [List.find?_cons_of_neg _ (by simp [hne])]
      have hmem' : (i, r) ∈ l := by
        rcases List.mem_cons.mp hmem with h | h
        · exact absurd (congrArg Prod.fst h.symm) hp
        · exact h
      exact ih hmem' (fun q hq => huniq q (List.mem_cons_of_mem p hq))

theorem enumFrom_mem (rs : List Record) (i : Nat) (r : Record)
    (hi : 1 ≤ i) (hr : rs[i - 1]? = some r) : (i, r) ∈ List.enumFrom 1 rs := by
  apply List.mem_iff_getElem?.mpr
  refine ⟨i - 1, ?_⟩
  have h1 : 1 + (i - 1) = i := by omega
  rw [List.getElem?_enumFrom, hr, Option.map_some', h1]

theorem enumFrom_uniq (rs : List Record) (i : Nat) (r : Record)
    (hr : rs[i - 1]? = some r) :
    ∀ p ∈ List.enumFrom 1 rs, p.1 = i → p.2 = r := by
  intro p hp hpi
  obtain ⟨m, hm⟩ := List.mem_iff_getElem?.mp hp
  rw [List.getElem?_enumFrom] at hm
  cases hrs : rs[m]? with
  | none => rw [hrs] at hm; simp at hm
  | some a =>
    rw [hrs] at hm
    simp only [Option.map_some', Option.some.injEq] at hm
    have h1 : 1 + m = p.1 := congrArg Prod.fst hm
    have h2 : a = p.2 := congrArg Prod.snd hm
    have hmi : m = i - 1 := by omega
    rw [hmi, hr] at hrs
    cases hrs
    exact h2.symm

/-- The content of `pharokka_<i>.gbk` after a successful run: the serialised
record at 1-based position `i` of the input order. -/
theorem split_genbank_lookup (fs0 fs1 : FS) (input dir : String) (content : List Line)
    (rs : List Record) (hmk : makedirs fs0 dir = some fs1)
    (hin : fs1.lookupFile input = some content)
    (hparse : parseRecords content = Except.ok rs)
    (i : Nat) (r : Record) (hi : 1 ≤ i) (hr : rs[i - 1]? = some r) :
    (split_genbank noFail fs0 input dir).fs.lookupFile (outputPath dir i) =
      some (writeRecord r) := by
  rw [split_genbank_noFail_eq fs0 fs1 input dir content rs hmk hin hparse]
  unfold FS.lookupFile
  simp only []
  rw [applyEvents_files, List.find?_append, writtenFiles_flatMap, ← List.map_reverse]
  rw [find?_outputPath dir i r ((List.enumFrom 1 rs).reverse)
    (by simpa using enumFrom_mem rs i r hi hr)
    (fun p hp => enumFrom_uniq rs i r hr p (by simpa using hp))]
  rfl

theorem writtenPaths_run (fs0 fs1 : FS) (input dir : String) (content : List Line)
    (rs : List Record) (hmk : makedirs fs0 dir = some fs1)
    (hin : fs1.lookupFile input = some content)
    (hparse : parseRecords content = Except.ok rs) :
    (writtenFiles (split_genbank noFail fs0 input dir).events).map Prod.fst =
      (List.range' 1 rs.length).map (outputPath dir) := by
  rw [split_genbank_noFail_eq fs0 fs1 input dir content rs hmk hin hparse]
  simp only []
  rw [writtenFiles_flatMap, List.map_map]
  have h : (Prod.fst ∘ fun p : Nat × Record => (outputPath dir p.1, writeRecord p.2)) =
      outputPath dir ∘ Prod.fst := rfl
  rw [h, ← List.map_map, List.enumFrom_map_fst]

theorem stdout_run (fs0 fs1 : FS) (input dir : String) (content : List Line)
    (rs : List Record) (hmk : makedirs fs0 dir = some fs1)
    (hin : fs1.lookupFile input = some content)
    (hparse : parseRecords content = Except.ok rs) :
    (split_genbank noFail fs0 input dir).stdout =
      (List.range' 1 rs.length).map (fun j => "Written " ++ outputPath dir j) := by
  rw [split_genbank_noFail_eq fs0 fs1 input dir content rs hmk hin hparse]
  simp only []
  have h : (fun p : Nat × Record => "Written " ++ outputPath dir p.1) =
      (fun j => "Written " ++ outputPath dir j) ∘ Prod.fst := rfl
  rw [h, ← List.map_map, List.enumFrom_map_fst]

/-! ### Helpers for repeated runs and failure analysis -/

theorem isFilePath_applyEvents (fs : FS) (evs : List Event) (d : String)
    (hfs : fs.isFilePath d = false)
    (hevs : ∀ pc ∈ writtenFiles evs, pc.1 ≠ d) :
    (applyEvents fs evs).isFilePath d = false := by
  unfold FS.isFilePath at *
  rw [applyEvents_files, List.any_append, Bool.or_eq_false_iff]
  refine ⟨?_, hfs⟩
  rw [List.any_eq_false]
  intro pc hpc
  have := hevs pc (by simpa using hpc)
  simpa using this

theorem lookupFile_applyEvents_twice (fs : FS) (evs : List Event) (p : String) :
    (applyEvents (applyEvents fs evs) evs).lookupFile p =
      (applyEvents fs evs).lookupFile p := by
  unfold FS.lookupFile
  rw [applyEvents_files, applyEvents_files, List.find?_append, List.find?_append,
    ← Option.or_assoc, Option.or_self]

theorem makedirs_of_mem (fs : FS) (d : String) (hdir : d ∈ fs.dirs)
    (hfile : fs.isFilePath d = false) : makedirs fs d = some fs := by
  unfold makedirs
  rw [hfile]
  simp only [Bool.false_eq_true, if_false]
  rw [if_pos (List.elem_eq_true_of_mem hdir)]

theorem string_append_cancel_left {s t u : String} (h : s ++ t = s ++ u) : t = u := by
  have h' := congrArg String.data h
  simp only [String.data_append] at h'
  exact String.ext (List.append_cancel_left h')

theorem enumFrom_fst_bound (s : Nat) {α : Type} (l : List α) (p : Nat × α)
    (hp : p ∈ List.enumFrom s l) : s ≤ p.1 ∧ p.1 < s + l.length := by
  obtain ⟨m, hm⟩ := List.mem_iff_getElem?.mp hp
  rw [List.getElem?_enumFrom] at hm
  cases hrs : l[m]? with
  | none => rw [hrs] at hm; simp at hm
  | some a =>
    rw [hrs] at hm
    simp only [Option.map_some', Option.some.injEq] at hm
    have h1 : 1 * s + m = p.1 := by
      have := congrArg Prod.fst hm
      simpa using this
    have h2 : m < l.length := by
      by_contra hge
      rw [List.getElem?_eq_none (by omega)] at hrs
      cases hrs
    omega

theorem mem_flatMap_recordEvents (dir : String) (l : List (Nat × Record)) (e : Event)
    (he : e ∈ l.flatMap (recordEvents dir)) :
    ∃ p ∈ l, e = Event.wrote (outputPath dir p.1) (writeRecord p.2) ∨
      e = Event.printed ("Written " ++ outputPath dir p.1) := by
  obtain ⟨p, hp, hmem⟩ := List.mem_flatMap.mp he
  refine ⟨p, hp, ?_⟩
  simp only [recordEvents, List.mem_cons, List.mem_singleton] at hmem
  rcases hmem with h | h | h
  · exact Or.inl h
  · exact Or.inr h
  · cases h

/-- Any run whose input file is missing, or whose content does not parse,
terminates with a `ParseError` having emitted no event: the filesystem state
is exactly the one left by the directory-creation step. -/
theorem split_genbank_fail_eq (wf : Nat → Bool) (fs0 fs1 : FS) (input dir : String)
    (hmk : makedirs fs0 dir = some fs1)
    (hfail : (fs1.lookupFile input).bind (fun c => (parseRecords c).toOption) = none) :
    split_genbank wf fs0 input dir = ⟨fs1, [], [], some ProgError.parseError⟩ := by
  unfold split_genbank
  rw [hmk]
  simp only []
  cases hin : fs1.lookupFile input with
  | none => rfl
  | some c =>
    rw [hin] at hfail
    simp only [Option.some_bind] at hfail
    cases hp : parseRecords c with
    | error e => simp only [hp]
    | ok rs => rw [hp] at hfail; simp [Except.toOption] at hfail

/-! ### Concrete example data (spec §8: `phages.gbk` with three records) -/

def recA : Record := ⟨"phageA", "ATGC", ["cds 1..4"]⟩

def recB : Record := ⟨"phageB", "GGCC", []⟩

def recC : Record := ⟨"phageC", "TTAA", ["gene 1..2", "cds 1..2"]⟩

def sampleRecords : List Record := [recA, recB, recC]

def sampleContent : List Line := writeRecords sampleRecords

def sampleFS : FS := ⟨[], [("phages.gbk", sampleContent)]⟩

def sampleOut : FS := ⟨["out"], [("phages.gbk", sampleContent)]⟩

/-! ### The claims -/

/-- C1: for an input file containing N records, a fault-free run exits
successfully and writes exactly N output files whose paths are, in input
order, `pharokka_1.gbk` … `pharokka_N.gbk` in the output directory, all
pairwise distinct. -/
theorem claim1_count (fs0 fs1 : FS) (input dir : String) (content : List Line)
    (rs : List Record) (hmk : makedirs fs0 dir = some fs1)
    (hin : fs1.lookupFile input = some content)
    (hparse : parseRecords content = Except.ok rs) :
    (split_genbank noFail fs0 input dir).error = none ∧
    (writtenFiles (split_genbank noFail fs0 input dir).events).map Prod.fst =
      (List.range' 1 rs.length).map (outputPath dir) ∧
    ((writtenFiles (split_genbank noFail fs0 input dir).events).map Prod.fst).Nodup := by
  refine ⟨?_, writtenPaths_run fs0 fs1 input dir content rs hmk hin hparse, ?_⟩
  · rw [split_genbank_noFail_eq fs0 fs1 input dir content rs hmk hin hparse]
  · rw [writtenPaths_run fs0 fs1 input dir content rs hmk hin hparse]
    exact (List.nodup_range' 1 rs.length).map (outputPath_injective dir)

/-- C1 witness: the three-record example of spec §8. -/
theorem claim1_count_witness :
    (split_genbank noFail sampleFS "phages.gbk" "out").error = none ∧
    (writtenFiles (split_genbank noFail sampleFS "phages.gbk" "out").events).map Prod.fst =
      (List.range' 1 sampleRecords.length).map (outputPath "out") ∧
    ((writtenFiles (split_genbank noFail sampleFS "phages.gbk" "out").events).map
      Prod.fst).Nodup :=
  claim1_count sampleFS sampleOut "phages.gbk" "out" sampleContent sampleRecords
    (by decide) (by decide) (parseRecords_writeRecords sampleRecords)

/-- C2: after a fault-free run, the output file `pharokka_<i>.gbk` contains
exactly the serialisation of the record at 1-based position `i` of the
input's record order. -/
theorem claim2_order (fs0 fs1 : FS) (input dir : String) (content : List Line)
    (rs : List Record) (hmk : makedirs fs0 dir = some fs1)
    (hin : fs1.lookupFile input = some content)
    (hparse : parseRecords content = Except.ok rs)
    (i : Nat) (r : Record) (hi : 1 ≤ i) (hr : rs[i - 1]? = some r) :
    (split_genbank noFail fs0 input dir).fs.lookupFile (outputPath dir i) =
      some (writeRecord r) :=
  split_genbank_lookup fs0 fs1 input dir content rs hmk hin hparse i r hi hr

/-- C2 witness: in the example, `pharokka_2.gbk` holds the second record. -/
theorem claim2_order_witness :
    (split_genbank noFail sampleFS "phages.gbk" "out").fs.lookupFile (outputPath "out" 2) =
      some (writeRecord recB) :=
  claim2_order sampleFS sampleOut "phages.gbk" "out" sampleContent sampleRecords
    (by decide) (by decide) (parseRecords_writeRecords sampleRecords) 2 recB
    (by decide) (by decide)

/-- C3: semantic round-trip — after a fault-free run, re-parsing any output
file in the same format yields exactly the corresponding input record, with
its identifier, sequence data and feature annotations. -/
theorem claim3_roundtrip (fs0 fs1 : FS) (input dir : String) (content : List Line)
    (rs : List Record) (hmk : makedirs fs0 dir = some fs1)
    (hin : fs1.lookupFile input = some content)
    (hparse : parseRecords content = Except.ok rs)
    (i : Nat) (r : Record) (hi : 1 ≤ i) (hr : rs[i - 1]? = some r) :
    ∃ c, (split_genbank noFail fs0 input dir).fs.lookupFile (outputPath dir i) = some c ∧
      parseRecords c = Except.ok [r] :=
  ⟨writeRecord r,
    split_genbank_lookup fs0 fs1 input dir content rs hmk hin hparse i r hi hr,
    parseRecords_writeRecord r⟩

/-- C3 witness: in the example, re-parsing `pharokka_3.gbk` yields the third
record. -/
theorem claim3_roundtrip_witness :
    ∃ c, (split_genbank noFail sampleFS "phages.gbk" "out").fs.lookupFile
        (outputPath "out" 3) = some c ∧
      parseRecords c = Except.ok [recC] :=
  claim3_roundtrip sampleFS sampleOut "phages.gbk" "out" sampleContent sampleRecords
    (by decide) (by decide) (parseRecords_writeRecords sampleRecords) 3 recC
    (by decide) (by decide)

/-- C4 counterexample: an empty input file (no lines, hence no records)
parses to the empty record sequence and the program exits successfully —
it does not terminate with a parse failure as the claim states. -/
theorem claim4_counterexample :
    parseRecords [] = Except.ok [] ∧
    (split_genbank noFail ⟨[], [("phages.gbk", [])]⟩ "phages.gbk" "out").error ≠
      some ProgError.parseError ∧
    (split_genbank noFail ⟨[], [("phages.gbk", [])]⟩ "phages.gbk" "out").error = none := by
  refine ⟨rfl, ?_, ?_⟩ <;> decide

/-- C4 (amended): for an empty input file, `parseAll` succeeds with zero
records, and the program exits successfully having written no output file
and printed nothing. -/
theorem claim4_empty_parse (fs0 fs1 : FS) (input dir : String)
    (hmk : makedirs fs0 dir = some fs1)
    (hin : fs1.lookupFile input = some []) :
    parseRecords [] = Except.ok [] ∧
    (split_genbank noFail fs0 input dir).error = none ∧
    (split_genbank noFail fs0 input dir).events = [] ∧
    (split_genbank noFail fs0 input dir).stdout = [] := by
  have heq := split_genbank_noFail_eq fs0 fs1 input dir [] [] hmk hin rfl
  rw [heq]
  exact ⟨rfl, rfl, by simp [List.enumFrom], by simp [List.enumFrom]⟩

/-- C4 witness: a concrete empty input file. -/
theorem claim4_empty_parse_witness :
    parseRecords [] = Except.ok [] ∧
    (split_genbank noFail ⟨[], [("empty.gbk", [])]⟩ "empty.gbk" "out").error = none ∧
    (split_genbank noFail ⟨[], [("empty.gbk", [])]⟩ "empty.gbk" "out").events = [] ∧
    (split_genbank noFail ⟨[], [("empty.gbk", [])]⟩ "empty.gbk" "out").stdout = [] :=
  claim4_empty_parse ⟨[], [("empty.gbk", [])]⟩ ⟨["out"], [("empty.gbk", [])]⟩
    "empty.gbk" "out" (by decide) (by decide)

/-- C5: an input file containing zero records produces zero output files —
no write event, no stdout line, the file set is untouched — and the program
exits successfully. -/
theorem claim5_empty_input (fs0 fs1 : FS) (input dir : String) (content : List Line)
    (hmk : makedirs fs0 dir = some fs1)
    (hin : fs1.lookupFile input = some content)
    (hparse : parseRecords content = Except.ok []) :
    (split_genbank noFail fs0 input dir).error = none ∧
    (split_genbank noFail fs0 input dir).events = [] ∧
    (split_genbank noFail fs0 input dir).stdout = [] ∧
    (split_genbank noFail fs0 input dir).fs.files = fs0.files := by
  have heq := split_genbank_noFail_eq fs0 fs1 input dir content [] hmk hin hparse
  rw [heq]
  refine ⟨rfl, by simp [List.enumFrom], by simp [List.enumFrom], ?_⟩
  have h1 : (List.enumFrom 1 ([] : List Record)).flatMap (recordEvents dir) = [] := by
    simp [List.enumFrom]
  rw [h1]
  show (applyEvents fs1 []).files = fs0.files
  rw [show applyEvents fs1 [] = fs1 from rfl, makedirs_files hmk]

/-- C5 witness: an input that is an empty record collection, with the output
directory already existing. -/
theorem claim5_empty_input_witness :
    (split_genbank noFail ⟨["out"], [("none.gbk", [])]⟩ "none.gbk" "out").error = none ∧
    (split_genbank noFail ⟨["out"], [("none.gbk", [])]⟩ "none.gbk" "out").events = [] ∧
    (split_genbank noFail ⟨["out"], [("none.gbk", [])]⟩ "none.gbk" "out").stdout = [] ∧
    (split_genbank noFail ⟨["out"], [("none.gbk", [])]⟩ "none.gbk" "out").fs.files =
      (⟨["out"], [("none.gbk", [])]⟩ : FS).files :=
  claim5_empty_input ⟨["out"], [("none.gbk", [])]⟩ ⟨["out"], [("none.gbk", [])]⟩
    "none.gbk" "out" [] (by decide) (by decide) rfl

/-- C7: all records are parsed before any write begins, so on any parse
failure — the input file missing, or its content not parsing — the program
aborts with a `ParseError` having emitted no write event and no stdout line;
the only filesystem mutation is the creation of the output directory. -/
theorem claim7_parse_abort (wf : Nat → Bool) (fs0 fs1 : FS) (input dir : String)
    (hmk : makedirs fs0 dir = some fs1)
    (hfail : (fs1.lookupFile input).bind (fun c => (parseRecords c).toOption) = none) :
    (split_genbank wf fs0 input dir).error = some ProgError.parseError ∧
    (split_genbank wf fs0 input dir).events = [] ∧
    (split_genbank wf fs0 input dir).stdout = [] ∧
    (split_genbank wf fs0 input dir).fs.files = fs0.files ∧
    ((split_genbank wf fs0 input dir).fs.dirs = fs0.dirs ∨
      (split_genbank wf fs0 input dir).fs.dirs = dir :: fs0.dirs) := by
  rw [split_genbank_fail_eq wf fs0 fs1 input dir hmk hfail]
  exact ⟨rfl, rfl, rfl, makedirs_files hmk, (makedirs_dirs hmk).2.1⟩

/-- C7 witness: a missing input file. -/
theorem claim7_parse_abort_witness :
    (split_genbank noFail ⟨[], []⟩ "phages.gbk" "out").error = some ProgError.parseError ∧
    (split_genbank noFail ⟨[], []⟩ "phages.gbk" "out").events = [] ∧
    (split_genbank noFail ⟨[], []⟩ "phages.gbk" "out").stdout = [] ∧
    (split_genbank noFail ⟨[], []⟩ "phages.gbk" "out").fs.files = (⟨[], []⟩ : FS).files ∧
    ((split_genbank noFail ⟨[], []⟩ "phages.gbk" "out").fs.dirs = (⟨[], []⟩ : FS).dirs ∨
      (split_genbank noFail ⟨[], []⟩ "phages.gbk" "out").fs.dirs =
        "out" :: (⟨[], []⟩ : FS).dirs) :=
  claim7_parse_abort noFail ⟨[], []⟩ ⟨["out"], []⟩ "phages.gbk" "out"
    (by decide) (by decide)

/-- C9: a fault-free run emits exactly one `Written <path>` line per record,
in input record order; in the event trace each progress line comes right
after the write of that record's file, so N records yield N lines. -/
theorem claim9_stdout (fs0 fs1 : FS) (input dir : String) (content : List Line)
    (rs : List Record) (hmk : makedirs fs0 dir = some fs1)
    (hin : fs1.lookupFile input = some content)
    (hparse : parseRecords content = Except.ok rs) :
    (split_genbank noFail fs0 input dir).events =
      (List.enumFrom 1 rs).flatMap (recordEvents dir) ∧
    (split_genbank noFail fs0 input dir).stdout =
      (List.range' 1 rs.length).map (fun j => "Written " ++ outputPath dir j) ∧
    (split_genbank noFail fs0 input dir).stdout.length = rs.length := by
  refine ⟨?_, stdout_run fs0 fs1 input dir content rs hmk hin hparse, ?_⟩
  · rw [split_genbank_noFail_eq fs0 fs1 input dir content rs hmk hin hparse]
  · rw [stdout_run fs0 fs1 input dir content rs hmk hin hparse]
    simp

/-- C9 witness: three records yield the three expected lines. -/
theorem claim9_stdout_witness :
    (split_genbank noFail sampleFS "phages.gbk" "out").events =
      (List.enumFrom 1 sampleRecords).flatMap (recordEvents "out") ∧
    (split_genbank noFail sampleFS "phages.gbk" "out").stdout =
      (List.range' 1 sampleRecords.length).map (fun j => "Written " ++ outputPath "out" j) ∧
    (split_genbank noFail sampleFS "phages.gbk" "out").stdout.length =
      sampleRecords.length :=
  claim9_stdout sampleFS sampleOut "phages.gbk" "out" sampleContent sampleRecords
    (by decide) (by decide) (parseRecords_writeRecords sampleRecords)

/-- A run whose first failing write is at position `k` (within range)
terminates with a `WriteError`, its trace being exactly that of records
`1 … k-1`. -/
theorem split_genbank_writefail_eq (wf : Nat → Bool) (fs0 fs1 : FS)
    (input dir : String) (content : List Line) (rs : List Record) (k : Nat)
    (hmk : makedirs fs0 dir = some fs1)
    (hin : fs1.lookupFile input = some content)
    (hparse : parseRecords content = Except.ok rs)
    (hk : wf k = true) (hlt : ∀ j, j < k → wf j = false)
    (hk1 : 1 ≤ k) (hkN : k ≤ rs.length) :
    split_genbank wf fs0 input dir =
      ⟨applyEvents fs1 ((List.enumFrom 1 (rs.take (k - 1))).flatMap (recordEvents dir)),
       printedLines ((List.enumFrom 1 (rs.take (k - 1))).flatMap (recordEvents dir)),
       (List.enumFrom 1 (rs.take (k - 1))).flatMap (recordEvents dir),
       some ProgError.writeError⟩ := by
  unfold split_genbank
  rw [hmk]
  simp only []
  rw [hin]
  simp only []
  rw [hparse]
  have hloop := splitLoop_fail wf dir k hk hlt rs 1 hk1 (by omega)
  simp only [hloop]
  simp

/-- C8: if the write of the record at position `k` fails, the program aborts
at once with a `WriteError`: its trace is exactly that of records `1 … k-1`,
and for any position `j ≥ k` neither a write of `pharokka_<j>.gbk` nor a
`Written` progress line for it occurs. -/
theorem claim8_failfast (wf : Nat → Bool) (fs0 fs1 : FS) (input dir : String)
    (content : List Line) (rs : List Record) (k : Nat)
    (hmk : makedirs fs0 dir = some fs1)
    (hin : fs1.lookupFile input = some content)
    (hparse : parseRecords content = Except.ok rs)
    (hk : wf k = true) (hlt : ∀ j, j < k → wf j = false)
    (hk1 : 1 ≤ k) (hkN : k ≤ rs.length)
    (j : Nat) (c : List Line) (hkj : k ≤ j) :
    (split_genbank wf fs0 input dir).error = some ProgError.writeError ∧
    (split_genbank wf fs0 input dir).events =
      (List.enumFrom 1 (rs.take (k - 1))).flatMap (recordEvents dir) ∧
    Event.wrote (outputPath dir j) c ∉ (split_genbank wf fs0 input dir).events ∧
    Event.printed ("Written " ++ outputPath dir j) ∉
      (split_genbank wf fs0 input dir).events := by
  rw [split_genbank_writefail_eq wf fs0 fs1 input dir content rs k hmk hin hparse
    hk hlt hk1 hkN]
  have hbound : ∀ p : Nat × Record, p ∈ List.enumFrom 1 (rs.take (k - 1)) → p.1 < k := by
    intro p hp
    have hb := enumFrom_fst_bound 1 (rs.take (k - 1)) p hp
    have hlen : (rs.take (k - 1)).length ≤ k - 1 := by
      simp only [List.length_take]
      omega
    omega
  refine ⟨rfl, rfl, ?_, ?_⟩
  · intro hmem
    obtain ⟨p, hp, hcase⟩ := mem_flatMap_recordEvents dir _ _ hmem
    rcases hcase with h | h
    · have hpath : outputPath dir j = outputPath dir p.1 := by
        injection h with h1 _
      have := outputPath_injective dir hpath
      have := hbound p hp
      omega
    · cases h
  · intro hmem
    obtain ⟨p, hp, hcase⟩ := mem_flatMap_recordEvents dir _ _ hmem
    rcases hcase with h | h
    · cases h
    · have hline : ("Written " : String) ++ outputPath dir j =
          "Written " ++ outputPath dir p.1 := by
        injection h
      have hpath := string_append_cancel_left hline
      have := outputPath_injective dir hpath
      have := hbound p hp
      omega

/-- C8 witness: the write of record 2 fails; only record 1 is written and
announced, nothing at positions 2 and 3. -/
theorem claim8_failfast_witness :
    (split_genbank (fun i => i == 2) sampleFS "phages.gbk" "out").error =
      some ProgError.writeError ∧
    (split_genbank (fun i => i == 2) sampleFS "phages.gbk" "out").events =
      (List.enumFrom 1 (sampleRecords.take 1)).flatMap (recordEvents "out") ∧
    Event.wrote (outputPath "out" 3) (writeRecord recC) ∉
      (split_genbank (fun i => i == 2) sampleFS "phages.gbk" "out").events ∧
    Event.printed ("Written " ++ outputPath "out" 3) ∉
      (split_genbank (fun i => i == 2) sampleFS "phages.gbk" "out").events :=
  claim8_failfast (fun i => i == 2) sampleFS sampleOut "phages.gbk" "out"
    sampleContent sampleRecords 2 (by decide) (by decide)
    (parseRecords_writeRecords sampleRecords) (by decide) (by decide)
    (by decide) (by decide) 3 (writeRecord recC) (by decide)

/-- C6: directory creation is idempotent and a second run over the very same
input and the already-populated output directory does not fail because the
directory exists: it succeeds, emits the same events and stdout, and leaves
every path with the same content as after the first run. -/
theorem claim6_idempotent (fs0 fs1 : FS) (input dir : String) (content : List Line)
    (rs : List Record)
    (hmk : makedirs fs0 dir = some fs1)
    (hin : fs1.lookupFile input = some content)
    (hparse : parseRecords content = Except.ok rs)
    (hkeep : (split_genbank noFail fs0 input dir).fs.lookupFile input = some content)
    (p : String) :
    (split_genbank noFail fs0 input dir).error = none ∧
    makedirs (split_genbank noFail fs0 input dir).fs dir =
      some (split_genbank noFail fs0 input dir).fs ∧
    (split_genbank noFail (split_genbank noFail fs0 input dir).fs input dir).error = none ∧
    (split_genbank noFail (split_genbank noFail fs0 input dir).fs input dir).events =
      (split_genbank noFail fs0 input dir).events ∧
    (split_genbank noFail (split_genbank noFail fs0 input dir).fs input dir).stdout =
      (split_genbank noFail fs0 input dir).stdout ∧
    (split_genbank noFail (split_genbank noFail fs0 input dir).fs input dir).fs.lookupFile p =
      (split_genbank noFail fs0 input dir).fs.lookupFile p := by
  have heq1 := split_genbank_noFail_eq fs0 fs1 input dir content rs hmk hin hparse
  have hisfile1 : fs1.isFilePath dir = false := by
    have h0 := (makedirs_dirs hmk).2.2
    unfold FS.isFilePath at h0 ⊢
    rw [makedirs_files hmk]
    exact h0
  have hmk2 : makedirs (applyEvents fs1 ((List.enumFrom 1 rs).flatMap (recordEvents dir)))
      dir = some (applyEvents fs1 ((List.enumFrom 1 rs).flatMap (recordEvents dir))) := by
    apply makedirs_of_mem
    · rw [applyEvents_dirs]; exact (makedirs_dirs hmk).1
    · apply isFilePath_applyEvents _ _ _ hisfile1
      intro pc hpc
      rw [writtenFiles_flatMap] at hpc
      obtain ⟨q, _, hpair⟩ := List.mem_map.mp hpc
      rw [← hpair]
      exact outputPath_ne_dir dir q.1
  have hkeep' : (applyEvents fs1 ((List.enumFrom 1 rs).flatMap (recordEvents dir))).lookupFile
      input = some content := by
    rw [heq1] at hkeep
    exact hkeep
  have heq2 := split_genbank_noFail_eq
    (applyEvents fs1 ((List.enumFrom 1 rs).flatMap (recordEvents dir)))
    (applyEvents fs1 ((List.enumFrom 1 rs).flatMap (recordEvents dir)))
    input dir content rs hmk2 hkeep' hparse
  rw [heq1]
  simp only []
  rw [heq2]
  refine ⟨trivial, hmk2, rfl, rfl, rfl, ?_⟩
  exact lookupFile_applyEvents_twice fs1 ((List.enumFrom 1 rs).flatMap (recordEvents dir)) p

/-- C6 witness: running twice on the example input and the then-populated
output directory; `pharokka_2.gbk` keeps the same content. -/
theorem claim6_idempotent_witness :
    (split_genbank noFail sampleFS "phages.gbk" "out").error = none ∧
    makedirs (split_genbank noFail sampleFS "phages.gbk" "out").fs "out" =
      some (split_genbank noFail sampleFS "phages.gbk" "out").fs ∧
    (split_genbank noFail (split_genbank noFail sampleFS "phages.gbk" "out").fs
      "phages.gbk" "out").error = none ∧
    (split_genbank noFail (split_genbank noFail sampleFS "phages.gbk" "out").fs
      "phages.gbk" "out").events =
      (split_genbank noFail sampleFS "phages.gbk" "out").events ∧
    (split_genbank noFail (split_genbank noFail sampleFS "phages.gbk" "out").fs
      "phages.gbk" "out").stdout =
      (split_genbank noFail sampleFS "phages.gbk" "out").stdout ∧
    (split_genbank noFail (split_genbank noFail sampleFS "phages.gbk" "out").fs
      "phages.gbk" "out").fs.lookupFile (outputPath "out" 2) =
      (split_genbank noFail sampleFS "phages.gbk" "out").fs.lookupFile
        (outputPath "out" 2) :=
  claim6_idempotent sampleFS sampleOut "phages.gbk" "out" sampleContent sampleRecords
    (by decide) (by decide) (parseRecords_writeRecords sampleRecords) (by decide)
    (outputPath "out" 2)

/-- C10: the splitting step is deterministic and per-record: two runs whose
inputs parse to the same record sequence produce identical event traces and
stdout whatever the rest of the filesystem, and the content written to
`pharokka_<i>.gbk` depends only on the record at position `i` and the output
directory, not on the other records. -/
theorem claim10_deterministic (fsA fsA1 fsB fsB1 : FS) (inA inB dir : String)
    (cA cB : List Line) (rsA rsB : List Record)
    (hmkA : makedirs fsA dir = some fsA1) (hinA : fsA1.lookupFile inA = some cA)
    (hparseA : parseRecords cA = Except.ok rsA)
    (hmkB : makedirs fsB dir = some fsB1) (hinB : fsB1.lookupFile inB = some cB)
    (hparseB : parseRecords cB = Except.ok rsB)
    (i : Nat) (r : Record) (hi : 1 ≤ i)
    (hrA : rsA[i - 1]? = some r) (hrB : rsB[i - 1]? = some r) :
    (split_genbank noFail fsA inA dir).fs.lookupFile (outputPath dir i) =
      (split_genbank noFail fsB inB dir).fs.lookupFile (outputPath dir i) ∧
    (rsA = rsB →
      (split_genbank noFail fsA inA dir).events =
        (split_genbank noFail fsB inB dir).events ∧
      (split_genbank noFail fsA inA dir).stdout =
        (split_genbank noFail fsB inB dir).stdout) := by
  constructor
  · rw [split_genbank_lookup fsA fsA1 inA dir cA rsA hmkA hinA hparseA i r hi hrA,
      split_genbank_lookup fsB fsB1 inB dir cB rsB hmkB hinB hparseB i r hi hrB]
  · intro hAB
    subst hAB
    rw [split_genbank_noFail_eq fsA fsA1 inA dir cA rsA hmkA hinA hparseA,
      split_genbank_noFail_eq fsB fsB1 inB dir cB rsA hmkB hinB hparseB]
    exact ⟨rfl, rfl⟩

/-- C10 witness: two different inputs agreeing only on the record at
position 2 give `pharokka_2.gbk` the same content. -/
theorem claim10_deterministic_witness :
    (split_genbank noFail sampleFS "phages.gbk" "out").fs.lookupFile
        (outputPath "out" 2) =
      (split_genbank noFail ⟨[], [("other.gbk", writeRecords [recC, recB])]⟩
        "other.gbk" "out").fs.lookupFile (outputPath "out" 2) ∧
    (sampleRecords = [recC, recB] →
      (split_genbank noFail sampleFS "phages.gbk" "out").events =
        (split_genbank noFail ⟨[], [("other.gbk", writeRecords [recC, recB])]⟩
          "other.gbk" "out").events ∧
      (split_genbank noFail sampleFS "phages.gbk" "out").stdout =
        (split_genbank noFail ⟨[], [("other.gbk", writeRecords [recC, recB])]⟩
          "other.gbk" "out").stdout) :=
  claim10_deterministic sampleFS sampleOut
    ⟨[], [("other.gbk", writeRecords [recC, recB])]⟩
    ⟨["out"], [("other.gbk", writeRecords [recC, recB])]⟩
    "phages.gbk" "other.gbk" "out" sampleContent (writeRecords [recC, recB])
    sampleRecords [recC, recB]
    (by decide) (by decide) (parseRecords_writeRecords sampleRecords)
    (by decide) (by decide) (parseRecords_writeRecords [recC, recB])
    2 recB (by decide) (by decide) (by decide)

end SplitGenbank
